import Mathlib

/-!
# Verification of the USB bootable creator's orchestration engine

Shallow embedding of the image-writing engine of `usb-bootable-creator`:

* `src/flows/windows_flow.py` (`windows_flow`) — the Windows
  partition/format/populate flow, modelled as a list of steps run by
  `runSteps` under a failure point `k` (the index of the first external
  checked command that exits non-zero; `k` at least the number of checked
  commands means the run succeeds).
* `src/flows/linux_flow.py` (`linux_dd_flow`) — the Linux raw-copy flow
  with its carriage-return progress parser.
* `src/worker.py` (`WorkerThread._is_windows_iso`) and the legacy
  `src/src/main.py` variant — the image classifier.
* the rsync/cp copy steps of the Windows flow at the file level.

Events observable from a run (Qt signal emissions and external commands)
are recorded in traces; Python exceptions of external commands are
modelled by the failure point, `Except` results model exceptions escaping
a function.
-/

namespace USBCreator

/-- An observable event of a flow run: a Qt signal emission
(`log`/`overall`/`step` mirror `signals.log.emit` etc.), a checked
external command that succeeded (`cmdOk`) or raised (`cmdFail`,
`subprocess.run(..., check=True)`), a mount acquisition, an attempted
unmount (`umount` with `check=False`, failures swallowed), or an
unchecked auxiliary action (`rmtree`, `sync`, ...). -/
inductive Event where
  | log (msg : String)
  | overall (pct : Nat)
  | step (pct : Nat)
  | cmdOk (name : String)
  | cmdFail (name : String)
  | mountAcq (mp : String)
  | umountAtt (mp : String)
  | unchecked (name : String)
deriving DecidableEq

/-- One statement of the `try` body of `windows_flow`: either a pure
signal emission, or an external command run with `check=True` (or
`os.makedirs`, which can likewise raise) that aborts the flow when it
fails; `onOk` are the extra events its success produces (mount
acquisitions). -/
inductive WStep where
  | emit (e : Event)
  | checked (name : String) (onOk : List Event)

/-- Run the statements of a flow body. `k` is the number of checked
commands that succeed before the first failure; if `k` is at least the
number of checked commands in the body, every command succeeds. The
first failing command raises, aborting all remaining statements
(CalledProcessError / OSError propagate out of the `try` body). Returns
the trace of the body and whether it completed without an exception. -/
def runSteps : List WStep → Nat → List Event × Bool
  | [], _ => ([], true)
  | WStep.emit e :: rest, k =>
      (e :: (runSteps rest k).1, (runSteps rest k).2)
  | WStep.checked n _ :: _, 0 => ([Event.cmdFail n], false)
  | WStep.checked n extra :: rest, k + 1 =>
      (Event.cmdOk n :: (extra ++ (runSteps rest k).1), (runSteps rest k).2)

/-- Number of checked commands in a flow body. -/
def countChecked : List WStep → Nat
  | [] => 0
  | WStep.emit _ :: rest => countChecked rest
  | WStep.checked _ _ :: rest => countChecked rest + 1

/-- The `try` body of `windows_flow` (src/flows/windows_flow.py), in
statement order. The three mount points created before the `try`
(`base/iso`, `base/boot`, `base/install`) are written `"iso"`, `"boot"`,
`"install"`. The `parts` loop is unrolled into its two iterations. -/
def windowsBody : List WStep :=
  [ WStep.emit (Event.log "Wiping and partitioning..."),
    WStep.checked "wipefs" [],
    WStep.checked "parted mklabel gpt" [],
    WStep.emit (Event.overall 10),
    WStep.emit (Event.step 100),
    WStep.emit (Event.log "Creating partition BOOT..."),
    WStep.checked "parted mkpart BOOT" [],
    WStep.emit (Event.log "Creating partition ESD-USB..."),
    WStep.checked "parted mkpart ESD-USB" [],
    WStep.emit (Event.log "Formatting BOOT as FAT32..."),
    WStep.checked "mkfs.vfat" [],
    WStep.emit (Event.log "Formatting INSTALL as NTFS..."),
    WStep.checked "mkfs.ntfs" [],
    WStep.emit (Event.overall 30),
    WStep.emit (Event.step 100),
    WStep.emit (Event.log "Mounting ISO..."),
    WStep.checked "mount iso" [Event.mountAcq "iso"],
    WStep.emit (Event.overall 35),
    WStep.emit (Event.step 100),
    WStep.emit (Event.log "Mounting BOOT partition..."),
    WStep.checked "mount p1" [Event.mountAcq "boot"],
    WStep.emit (Event.log "Copying files to BOOT..."),
    WStep.checked "rsync to boot" [],
    WStep.emit (Event.log "Copying boot.wim..."),
    WStep.checked "makedirs boot sources" [],
    WStep.checked "cp boot.wim" [],
    WStep.emit (Event.overall 60),
    WStep.emit (Event.step 100),
    WStep.emit (Event.log "Mounting INSTALL partition..."),
    WStep.checked "mount p2" [Event.mountAcq "install"],
    WStep.emit (Event.log "Copying files to INSTALL..."),
    WStep.checked "rsync to install" [],
    WStep.emit (Event.overall 90),
    WStep.emit (Event.step 100) ]

/-- The `finally` block of `windows_flow`: unmount the three mount
points in the fixed order install, boot, iso (each `check=False`),
remove the directories, `sync`, and emit the terminal progress and log
events. Nothing in it can raise. -/
def windowsCleanup : List Event :=
  [ Event.log "Cleaning up mounts...",
    Event.umountAtt "install",
    Event.umountAtt "boot",
    Event.umountAtt "iso",
    Event.unchecked "rmtree base",
    Event.unchecked "sync",
    Event.overall 100,
    Event.step 100,
    Event.log "Windows USB creation completed." ]

/-- `windows_flow` from src/flows/windows_flow.py: the `try` body
followed on every exit path by the `finally` block. Returns the full
event trace and whether the body completed without an exception (on
`false` the exception propagates to the caller after the cleanup). -/
def windowsFlow (k : Nat) : List Event × Bool :=
  ((runSteps windowsBody k).1 ++ windowsCleanup, (runSteps windowsBody k).2)

/-- The overall-progress percentages emitted in a trace, in order. -/
def overallValues (t : List Event) : List Nat :=
  t.filterMap fun e =>
    match e with
    | Event.overall n => some n
    | _ => none

/-- The mount points acquired in a trace, in order. -/
def mountsAcquired (t : List Event) : List String :=
  t.filterMap fun e =>
    match e with
    | Event.mountAcq m => some m
    | _ => none

/-- The mount points whose release (unmount) was attempted, in order. -/
def umountsAttempted (t : List Event) : List String :=
  t.filterMap fun e =>
    match e with
    | Event.umountAtt m => some m
    | _ => none

/-- `WorkerThread._is_windows_iso` from src/worker.py. Inputs abstract
the external world: whether `mount -o loop,ro` of the image at
`/tmp/iso_detect` succeeds, and whether the mounted root has a regular
file `bootmgr` and a directory `sources`. On mount failure the
`except subprocess.CalledProcessError` clause returns `False`; the
`finally` block always attempts `umount` (`check=False`) and `rmdir`
(OSError swallowed). Returns the trace and the function's result, as an
`Except` to record that no exception ever escapes this variant. -/
def workerIsWindowsIso (mountOk bootmgr sourcesDir : Bool) :
    List Event × Except String Bool :=
  if mountOk then
    ([Event.cmdOk "mount", Event.mountAcq "/tmp/iso_detect",
      Event.umountAtt "/tmp/iso_detect", Event.unchecked "rmdir"],
     Except.ok (bootmgr && sourcesDir))
  else
    ([Event.cmdFail "mount",
      Event.umountAtt "/tmp/iso_detect", Event.unchecked "rmdir"],
     Except.ok false)

/-- `WorkerThread._is_windows_iso` from the legacy src/src/main.py
(lines 168–184). Same marker check, but the `mount` call has no
`except` clause, so a mount failure propagates as CalledProcessError
after the `finally` block ran (its `umount` is `check=False`; the
preliminary unmount of any pre-existing mount of the image, and the
unguarded `os.rmdir`, succeed in this model). -/
def mainIsWindowsIso (mountOk bootmgr sourcesDir : Bool) :
    List Event × Except String Bool :=
  if mountOk then
    ([Event.cmdOk "mount", Event.mountAcq "/tmp/iso_detect",
      Event.umountAtt "/tmp/iso_detect", Event.unchecked "rmdir"],
     Except.ok (bootmgr && sourcesDir))
  else
    ([Event.cmdFail "mount",
      Event.umountAtt "/tmp/iso_detect", Event.unchecked "rmdir"],
     Except.error "CalledProcessError: mount")

/-! ## The dd progress parser

`linux_dd_flow` (src/flows/linux_flow.py) reads chunks from dd's stderr,
appends them to a buffer, and repeatedly splits off complete
carriage-return-terminated lines (`while CR in buf: line, buf =
buf.split(CR, 1)`). A line containing the substring `bytes` is parsed:
the text before the first occurrence of `" bytes"` goes through Python's
`int()` (ValueError is swallowed: no update), then
`pct = min(int(num * 100 / total), 100)` — which raises
ZeroDivisionError when `total == 0` — and `Copied pct%` is logged.
Python's `int(x)` on the float `num * 100 / total` truncates toward
zero, modelled by `Int.tdiv` (the float rounding itself is not
modelled); `int(str)` is modelled for optionally signed ASCII digit
strings with surrounding whitespace. -/

/-- Split a buffer into its complete carriage-return-terminated lines
and the remaining partial line, exactly as the repeated
`buf.split(CR, 1)` loop does. -/
def splitCR : List Char → List (List Char) × List Char
  | [] => ([], [])
  | c :: rest =>
      if c = '\r' then ([] :: (splitCR rest).1, (splitCR rest).2)
      else
        match (splitCR rest).1 with
        | [] => ([], c :: (splitCR rest).2)
        | l :: ls => ((c :: l) :: ls, (splitCR rest).2)

/-- Python `str.strip()` whitespace, as it occurs around the number in a
dd progress line. -/
def isWS (c : Char) : Bool :=
  c = ' ' || c = '\t' || c = '\n' || c = '\r' || c = '\x0b' || c = '\x0c'

/-- Value of a non-empty all-digit string. -/
def digitsVal (l : List Char) : Option Nat :=
  if l.isEmpty then none
  else if l.all Char.isDigit then
    some (l.foldl (fun acc c => acc * 10 + (c.toNat - 48)) 0)
  else none

/-- Python `int(s)` for strings: strip whitespace, optional sign,
decimal digits; anything else raises ValueError (`none`). -/
def pyInt (s : List Char) : Option Int :=
  match ((s.dropWhile isWS).reverse.dropWhile isWS).reverse with
  | '-' :: rest => (digitsVal rest).map fun n => -(n : Int)
  | '+' :: rest => (digitsVal rest).map fun n => (n : Int)
  | t => (digitsVal t).map fun n => (n : Int)

/-- Python `needle in hay` substring test. -/
def containsSub (needle : List Char) : List Char → Bool
  | [] => needle.isEmpty
  | c :: rest => needle.isPrefixOf (c :: rest) || containsSub needle rest

/-- Everything before the first occurrence of `needle`, i.e. Python
`hay.split(needle)[0]`; the whole string when `needle` does not occur. -/
def takeBefore (needle : List Char) : List Char → List Char
  | [] => []
  | c :: rest =>
      if needle.isPrefixOf (c :: rest) then []
      else c :: takeBefore needle rest

/-- The byte count a progress line reports: present when the line
contains `bytes` and the text before `" bytes"` parses as an integer
(`if 'bytes' in line` + `int(line.split(' bytes')[0])`, ValueError
meaning no update). -/
def parsedNum (line : List Char) : Option Int :=
  if containsSub "bytes".toList line then pyInt (takeBefore " bytes".toList line)
  else none

/-- `min(int(num * 100 / total), 100)` for a non-zero total. -/
def pctOf (total : Nat) (num : Int) : Int :=
  min (Int.tdiv (num * 100) (total : Int)) 100

/-- Process one complete line: no update when it does not parse, a
ZeroDivisionError when it parses and `total = 0`, the clamped
percentage otherwise. -/
def lineUpdate (total : Nat) (line : List Char) : Except String (Option Int) :=
  match parsedNum line with
  | none => Except.ok none
  | some num =>
      if total = 0 then Except.error "ZeroDivisionError"
      else Except.ok (some (pctOf total num))

/-- Process a list of complete lines in order, collecting the yielded
percentages; the first ZeroDivisionError aborts. -/
def processLines (total : Nat) : List (List Char) → Except String (List Int)
  | [] => Except.ok []
  | l :: ls =>
      match lineUpdate total l with
      | Except.error e => Except.error e
      | Except.ok none => processLines total ls
      | Except.ok (some p) =>
          match processLines total ls with
          | Except.error e => Except.error e
          | Except.ok ps => Except.ok (p :: ps)

/-- Feed one read chunk to the parser: append to the buffer, split off
all complete lines, process them. Returns the yielded percentages and
the new buffer. -/
def feedChunk (total : Nat) (buf chunk : List Char) :
    Except String (List Int × List Char) :=
  match processLines total (splitCR (buf ++ chunk)).1 with
  | Except.error e => Except.error e
  | Except.ok ys => Except.ok (ys, (splitCR (buf ++ chunk)).2)

/-- Feed a sequence of read chunks, threading the buffer, concatenating
the yields; this is the read loop of `linux_dd_flow`. -/
def feedChunks (total : Nat) (buf : List Char) :
    List (List Char) → Except String (List Int × List Char)
  | [] => Except.ok ([], buf)
  | c :: cs =>
      match feedChunk total buf c with
      | Except.error e => Except.error e
      | Except.ok (ys, buf1) =>
          match feedChunks total buf1 cs with
          | Except.error e => Except.error e
          | Except.ok (ys2, buf2) => Except.ok (ys ++ ys2, buf2)

/-- Terminal state of one `linux_dd_flow` run: normal completion, the
RuntimeError raised on a non-zero dd exit, or a ZeroDivisionError
escaping the progress loop. -/
inductive LinuxResult where
  | success
  | ddFailed
  | zeroDivFault
deriving DecidableEq

/-- The log emission for one parsed percentage:
`signals.log.emit(f'Copied ...%')`. -/
def copiedLog (p : Int) : Event :=
  Event.log ("Copied " ++ (toString p ++ "%"))

/-- `linux_dd_flow` from src/flows/linux_flow.py, over the image size
`total` (`os.path.getsize(iso)`), the chunks read from dd's stderr
during the poll loop, and dd's exit code. The flow logs, runs dd,
logs every parsed percentage (no deduplication and no
`overall`/`step` signal anywhere), raises RuntimeError when dd exits
non-zero — skipping the sync — and otherwise logs, runs `sync`
(`check=False`) and logs completion. The `finally` block removes the
temporary directory on every path. A ZeroDivisionError in the loop
(only possible when `total = 0`, where a parsed line faults before
yielding, so no `Copied` log precedes it) aborts everything after the
start log. -/
def linuxFlow (total : Nat) (chunks : List (List Char)) (exitCode : Nat) :
    List Event × LinuxResult :=
  match feedChunks total [] chunks with
  | Except.error _ =>
      ([Event.log "Starting dd copy...", Event.unchecked "rmtree base"],
       LinuxResult.zeroDivFault)
  | Except.ok (ys, _) =>
      if exitCode ≠ 0 then
        (Event.log "Starting dd copy..." ::
          (ys.map copiedLog ++ [Event.unchecked "rmtree base"]),
         LinuxResult.ddFailed)
      else
        (Event.log "Starting dd copy..." ::
          (ys.map copiedLog ++
            [Event.log "Syncing to disk...", Event.unchecked "sync",
             Event.log "dd copy completed.", Event.unchecked "rmtree base"]),
         LinuxResult.success)

/-- The log-deduplication state machine of the legacy `_run_dd_flow`
(src/src/main.py lines 206–217): `last` is `last_pct` (initially −1);
for each parsed percentage `p` the progress signal is emitted
unconditionally, a `Copied p%` log only when `last_pct >= 0 and
pct != last_pct`, and then `last_pct = pct`. Returns the sequence of
logged percentages. -/
def mainLogged (last : Int) : List Int → List Int
  | [] => []
  | p :: ps =>
      if 0 ≤ last ∧ p ≠ last then p :: mainLogged p ps
      else mainLogged p ps

/-! ## The Windows-flow copy steps at the file level

`windows_flow` populates the boot partition with
`rsync -a --exclude 'sources/' iso/ boot/` followed by
`cp iso/sources/boot.wim boot/sources` (src/flows/windows_flow.py lines
58–67). A file is identified with the list of its path components
below the mount root. -/

/-- A file path below the image root, as its components. -/
abbrev Path := List String

/-- Whether an rsync `--exclude 'sources/'` pattern excludes this file:
the pattern matches every *directory* named `sources` at any depth, so a
file is excluded exactly when one of its directory components is
`sources`. -/
def underSourcesDir (p : Path) : Bool :=
  p.dropLast.contains "sources"

/-- The bulk copy `rsync -a --no-owner --no-group --exclude 'sources/'
iso/ boot/`: every file of the image not under a `sources` directory. -/
def rsyncExcludeSources (files : List Path) : List Path :=
  files.filter fun p => !underSourcesDir p

/-- The boot partition contents after the bulk copy and the subsequent
`os.makedirs(boot/sources)` + `cp iso/sources/boot.wim boot/sources`.
The `cp` is a checked command: it requires `sources/boot.wim` to exist
in the image (otherwise the flow aborts), which callers state as a
hypothesis. -/
def bootPartitionContents (isoFiles : List Path) : List Path :=
  rsyncExcludeSources isoFiles ++ [["sources", "boot.wim"]]

/-- The image files of the C4 counterexample: a Windows-style tree with
`bootmgr` at the root and three files under `sources/`. -/
def cexIsoFiles : List Path :=
  [["bootmgr"], ["sources", "boot.wim"],
   ["sources", "install.wim"], ["sources", "setup.exe"]]

/-- The single large install-payload file of the C4 counterexample. -/
def cexPayload : Path := ["sources", "install.wim"]

/-! ## General lemmas about the step runner and the parser -/

lemma runSteps_eq_of_le (steps : List WStep) :
    ∀ j k, countChecked steps ≤ j → countChecked steps ≤ k →
      runSteps steps j = runSteps steps k := by
  induction steps with
  | nil => intro j k _ _; rfl
  | cons s rest ih =>
      intro j k hj hk
      cases s with
      | emit e =>
          simp only [countChecked] at hj hk
          simp only [runSteps, ih j k hj hk]
      | checked n extra =>
          simp only [countChecked] at hj hk
          obtain ⟨j', rfl⟩ : ∃ j', j = j' + 1 := ⟨j - 1, by omega⟩
          obtain ⟨k', rfl⟩ : ∃ k', k = k' + 1 := ⟨k - 1, by omega⟩
          simp only [runSteps, ih j' k' (by omega) (by omega)]

lemma countChecked_windowsBody : countChecked windowsBody = 13 := rfl

lemma windowsFlow_stable (k : Nat) (hk : 13 ≤ k) :
    windowsFlow k = windowsFlow 13 := by
  unfold windowsFlow
  rw [runSteps_eq_of_le windowsBody k 13 (countChecked_windowsBody ▸ hk)
    (le_of_eq countChecked_windowsBody)]

lemma windowsFlow_success_iff (k : Nat) : (windowsFlow k).2 = true ↔ 13 ≤ k := by
  constructor
  · intro h
    by_contra hlt
    push_neg at hlt
    interval_cases k <;> exact absurd h (by decide)
  · intro hk
    rw [windowsFlow_stable k hk]
    decide

lemma splitCR_rem_no_cr (s : List Char) : '\r' ∉ (splitCR s).2 := by
  induction s with
  | nil => simp [splitCR]
  | cons c rest ih =>
      by_cases hc : c = '\r'
      · simpa [splitCR, hc] using ih
      · cases h : (splitCR rest).1 with
        | nil =>
            simp only [splitCR, hc, if_false, h]
            simp only [List.mem_cons, not_or]
            exact ⟨fun he => hc he.symm, ih⟩
        | cons l ls =>
            simpa [splitCR, hc, h] using ih

lemma splitCR_no_cr (s : List Char) (h : '\r' ∉ s) : splitCR s = ([], s) := by
  induction s with
  | nil => rfl
  | cons c rest ih =>
      simp only [List.mem_cons, not_or] at h
      have hc : ¬ c = '\r' := fun he => h.1 he.symm
      have ih' := ih h.2
      simp [splitCR, hc, ih']

lemma splitCR_append (a b : List Char) :
    splitCR (a ++ b) =
      ((splitCR a).1 ++ (splitCR ((splitCR a).2 ++ b)).1,
       (splitCR ((splitCR a).2 ++ b)).2) := by
  induction a with
  | nil => simp [splitCR]
  | cons c a ih =>
      by_cases hc : c = '\r'
      · simp [splitCR, hc, ih]
      · cases h1 : (splitCR a).1 with
        | nil =>
            cases h3 : (splitCR ((splitCR a).2 ++ b)).1 with
            | nil =>
                simp only [List.cons_append, splitCR, List.append_eq, hc,
                  if_false, ih, h1, h3, List.nil_append]
            | cons l ls =>
                simp only [List.cons_append, splitCR, List.append_eq, hc,
                  if_false, ih, h1, h3, List.nil_append]
        | cons l ls =>
            simp only [List.cons_append, splitCR, List.append_eq, hc,
              if_false, ih, h1, List.cons_append]

lemma processLines_append (total : Nat) (l1 l2 : List (List Char)) :
    processLines total (l1 ++ l2) =
      match processLines total l1, processLines total l2 with
      | Except.error e, _ => Except.error e
      | Except.ok _, Except.error e => Except.error e
      | Except.ok ys1, Except.ok ys2 => Except.ok (ys1 ++ ys2) := by
  induction l1 with
  | nil =>
      simp only [List.nil_append, processLines]
      cases processLines total l2 <;> rfl
  | cons l ls ih =>
      rw [List.cons_append]
      cases hu : lineUpdate total l with
      | error e => simp only [processLines, hu]
      | ok o =>
          cases o with
          | none =>
              simp only [processLines, hu]
              exact ih
          | some p =>
              simp only [processLines, hu, ih]
              cases processLines total ls <;> cases processLines total l2 <;> rfl

lemma feedChunks_join (total : Nat) :
    ∀ (cs : List (List Char)) (buf : List Char), '\r' ∉ buf →
      feedChunks total buf cs = feedChunk total buf cs.flatten := by
  intro cs
  induction cs with
  | nil =>
      intro buf hbuf
      simp [feedChunks, feedChunk, splitCR_no_cr buf hbuf, processLines]
  | cons c cs ih =>
      intro buf hbuf
      have hrem : '\r' ∉ (splitCR (buf ++ c)).2 := splitCR_rem_no_cr (buf ++ c)
      have hflat : buf ++ (c :: cs).flatten = (buf ++ c) ++ cs.flatten := by
        simp [List.append_assoc]
      simp only [feedChunks, feedChunk, hflat, splitCR_append (buf ++ c) cs.flatten,
        processLines_append]
      cases hp : processLines total (splitCR (buf ++ c)).1 with
      | error e => rfl
      | ok ys =>
          dsimp only
          rw [ih (splitCR (buf ++ c)).2 hrem]
          simp only [feedChunk]
          cases processLines total (splitCR ((splitCR (buf ++ c)).2 ++ cs.flatten)).1 with
          | error e => rfl
          | ok ys2 => rfl

lemma processLines_ok (total : Nat) (ht : total ≠ 0) :
    ∀ ls, processLines total ls =
      Except.ok ((ls.filterMap parsedNum).map (pctOf total)) := by
  intro ls
  induction ls with
  | nil => rfl
  | cons l ls ih =>
      simp only [processLines, lineUpdate]
      cases h : parsedNum l with
      | none => simpa [List.filterMap_cons, h] using ih
      | some num => simp [List.filterMap_cons, h, ht, ih]

lemma processLines_zero_of_no_update (ls : List (List Char))
    (h : ls.filterMap parsedNum = []) : processLines 0 ls = Except.ok [] := by
  induction ls with
  | nil => rfl
  | cons l ls ih =>
      rw [List.filterMap_cons] at h
      cases hl : parsedNum l with
      | none =>
          rw [hl] at h
          simp only [processLines, lineUpdate, hl]
          exact ih h
      | some num => rw [hl] at h; exact absurd h (by simp)

lemma processLines_zero_of_update (ls : List (List Char))
    (h : ls.filterMap parsedNum ≠ []) :
    processLines 0 ls = Except.error "ZeroDivisionError" := by
  induction ls with
  | nil => exact absurd rfl h
  | cons l ls ih =>
      rw [List.filterMap_cons] at h
      cases hl : parsedNum l with
      | none =>
          rw [hl] at h
          simp only [processLines, lineUpdate, hl]
          exact ih h
      | some num => simp [processLines, lineUpdate, hl]

lemma feedChunks_ok (total : Nat) (ht : total ≠ 0) (chunks : List (List Char)) :
    feedChunks total [] chunks =
      Except.ok ((((splitCR chunks.flatten).1.filterMap parsedNum).map (pctOf total)),
        (splitCR chunks.flatten).2) := by
  rw [feedChunks_join total chunks [] (by simp)]
  simp only [feedChunk, List.nil_append, processLines_ok total ht]

lemma tdiv_le_tdiv_of_le {a b t : ℤ} (ht : 0 < t) (hab : a ≤ b) :
    a.tdiv t ≤ b.tdiv t := by
  rcases le_or_lt 0 a with ha | ha
  · rw [Int.tdiv_eq_ediv ha (le_of_lt ht),
      Int.tdiv_eq_ediv (le_trans ha hab) (le_of_lt ht)]
    exact Int.ediv_le_ediv ht hab
  · rcases le_or_lt 0 b with hb | hb
    · have k1 : (-a).tdiv t = -(a.tdiv t) := Int.neg_tdiv a t
      have h1 : (0 : ℤ) ≤ (-a).tdiv t :=
        Int.tdiv_nonneg (by omega) (le_of_lt ht)
      have h2 : (0 : ℤ) ≤ b.tdiv t := Int.tdiv_nonneg hb (le_of_lt ht)
      omega
    · have k1 : (-a).tdiv t = -(a.tdiv t) := Int.neg_tdiv a t
      have k2 : (-b).tdiv t = -(b.tdiv t) := Int.neg_tdiv b t
      have h3 : (-b).tdiv t ≤ (-a).tdiv t := by
        rw [Int.tdiv_eq_ediv (by omega) (le_of_lt ht),
          Int.tdiv_eq_ediv (by omega) (le_of_lt ht)]
        exact Int.ediv_le_ediv ht (by omega)
      omega

lemma pctOf_mono (total : Nat) (ht : 0 < total) {a b : ℤ} (hab : a ≤ b) :
    pctOf total a ≤ pctOf total b := by
  unfold pctOf
  refine min_le_min (tdiv_le_tdiv_of_le ?_ ?_) le_rfl
  · exact_mod_cast ht
  · linarith

lemma overallValues_append (t1 t2 : List Event) :
    overallValues (t1 ++ t2) = overallValues t1 ++ overallValues t2 :=
  List.filterMap_append t1 t2 _

lemma overallValues_copiedLogs (ys : List Int) :
    overallValues (ys.map copiedLog) = [] := by
  unfold overallValues
  rw [List.filterMap_map]
  exact List.filterMap_eq_nil_iff.mpr (by intro p _; rfl)

lemma linuxFlow_no_overall (total : Nat) (chunks : List (List Char))
    (exitCode : Nat) : overallValues (linuxFlow total chunks exitCode).1 = [] := by
  unfold linuxFlow
  cases feedChunks total [] chunks with
  | error e => rfl
  | ok pr =>
      cases pr with
      | mk ys rem =>
          by_cases he : exitCode ≠ 0 <;>
            simp [he, overallValues, List.filterMap_append, List.filterMap_map,
              List.filterMap_eq_nil_iff, copiedLog]

lemma copiedLog_msg_starts_c (p : Int) (msg : String)
    (h : copiedLog p = Event.log msg) : msg.data.head? = some 'C' := by
  simp only [copiedLog, Event.log.injEq] at h
  rw [← h, String.data_append]
  rfl

lemma copiedLog_ne_completed (p : Int) :
    copiedLog p ≠ Event.log "dd copy completed." := by
  intro h
  have := copiedLog_msg_starts_c p "dd copy completed." h
  exact absurd this (by decide)

/-! ## Claim C1 -/

/-- C1: on every execution of the Windows flow — whatever checked step
fails, or none — the cleanup runs and attempts the unmounts in the fixed
order install, boot, iso; the mounts actually acquired form a prefix of
iso, boot, install (acquisition order), each acquired mount is released
exactly once, and the attempted releases restricted to the acquired
mounts are exactly the acquisitions in reverse order. -/
theorem windows_mounts_released_in_reverse_order (k : Nat) :
    umountsAttempted (windowsFlow k).1 = ["install", "boot", "iso"] ∧
    mountsAcquired (windowsFlow k).1 =
      (["iso", "boot", "install"]).take (mountsAcquired (windowsFlow k).1).length ∧
    ((umountsAttempted (windowsFlow k).1).filter
        (fun m => (mountsAcquired (windowsFlow k).1).contains m)) =
      (mountsAcquired (windowsFlow k).1).reverse ∧
    ((mountsAcquired (windowsFlow k).1).all
        (fun m => (umountsAttempted (windowsFlow k).1).count m == 1)) = true := by
  rcases Nat.lt_or_ge k 13 with hk | hk
  · interval_cases k <;> decide
  · rw [windowsFlow_stable k hk]; decide

/-! ## Claim C5 -/

/-- C5: on every successful Windows-flow run the overall-progress values
emitted at step boundaries are exactly 10, 30, 35, 60, 90, 100, in that
order, and this sequence is non-decreasing. -/
theorem windows_overall_watermarks (k : Nat) (hk : (windowsFlow k).2 = true) :
    overallValues (windowsFlow k).1 = [10, 30, 35, 60, 90, 100] ∧
    List.Chain' (· ≤ ·) (overallValues (windowsFlow k).1) := by
  rw [windowsFlow_stable k ((windowsFlow_success_iff k).mp hk)]
  refine ⟨by decide, ?_⟩
  have h : overallValues (windowsFlow 13).1 = [10, 30, 35, 60, 90, 100] := by decide
  rw [h]
  simp [List.chain'_cons]

theorem windows_overall_watermarks_witness :
    overallValues (windowsFlow 13).1 = [10, 30, 35, 60, 90, 100] ∧
    List.Chain' (· ≤ ·) (overallValues (windowsFlow 13).1) :=
  windows_overall_watermarks 13 (by decide)

/-! ## Claim C10 -/

/-- C10: on every exit path of the Windows flow — success or any failing
step — the trace ends with the cleanup's final emissions: overall
progress 100, step progress 100 and the log line
"Windows USB creation completed.". -/
theorem windows_cleanup_final_emissions (k : Nat) :
    ∃ pre, (windowsFlow k).1 =
      pre ++ [Event.overall 100, Event.step 100,
              Event.log "Windows USB creation completed."] := by
  refine ⟨(runSteps windowsBody k).1 ++
      [ Event.log "Cleaning up mounts...",
        Event.umountAtt "install",
        Event.umountAtt "boot",
        Event.umountAtt "iso",
        Event.unchecked "rmtree base",
        Event.unchecked "sync" ], ?_⟩
  simp [windowsFlow, windowsCleanup]

/-! ## Claim C2 -/

/-- C2: for every image whose classification mount succeeds, the
classifier (both the live src/worker.py one and the legacy
src/src/main.py one) answers Windows exactly when a `bootmgr` file and a
`sources` directory both exist at the mount root, and Linux otherwise;
in both outcomes the one acquired mount has its release attempted before
returning, so acquisitions and attempted releases coincide. -/
theorem classifier_windows_iff_markers (bootmgr sourcesDir : Bool) :
    (workerIsWindowsIso true bootmgr sourcesDir).2 =
      Except.ok (bootmgr && sourcesDir) ∧
    (mainIsWindowsIso true bootmgr sourcesDir).2 =
      Except.ok (bootmgr && sourcesDir) ∧
    mountsAcquired (workerIsWindowsIso true bootmgr sourcesDir).1 =
      ["/tmp/iso_detect"] ∧
    umountsAttempted (workerIsWindowsIso true bootmgr sourcesDir).1 =
      ["/tmp/iso_detect"] := by
  cases bootmgr <;> cases sourcesDir <;> exact ⟨rfl, rfl, rfl, rfl⟩

/-! ## Claim C3 -/

/-- C3 counterexample: when the classification mount itself fails, the
live classifier in src/worker.py does NOT propagate the error — it
catches CalledProcessError and returns a Linux classification
(`False`), refuting the claim that classification then fails with a
propagated MountError. -/
theorem classifier_mount_failure_not_propagated :
    (workerIsWindowsIso false true true).2 = Except.ok false ∧
    ∀ msg, (workerIsWindowsIso false true true).2 ≠ Except.error msg := by
  refine ⟨rfl, ?_⟩
  intro msg
  simp [workerIsWindowsIso]

/-- C3 amended: on a failing classification mount the live classifier
(src/worker.py) swallows the error and classifies the image as Linux
(returns `False`, so the Linux flow is selected), still attempting the
release; only the legacy classifier in src/src/main.py propagates the
mount failure as an error. Release failures are swallowed in both. -/
theorem classifier_mount_failure_behavior (bootmgr sourcesDir : Bool) :
    (workerIsWindowsIso false bootmgr sourcesDir).2 = Except.ok false ∧
    (mainIsWindowsIso false bootmgr sourcesDir).2 =
      Except.error "CalledProcessError: mount" ∧
    umountsAttempted (workerIsWindowsIso false bootmgr sourcesDir).1 =
      ["/tmp/iso_detect"] ∧
    mountsAcquired (workerIsWindowsIso false bootmgr sourcesDir).1 = [] := by
  cases bootmgr <;> cases sourcesDir <;> exact ⟨rfl, rfl, rfl, rfl⟩

/-! ## Claim C4 -/

/-- C4 counterexample: the bulk copy to the boot partition excludes the
whole `sources/` directory, not just the single install-payload file:
on a concrete Windows-style image the bulk-copy result differs from
"everything except the payload", and `sources/setup.exe` — a file other
than the payload — is missing from the boot partition even after the
separate `boot.wim` copy. -/
theorem windows_boot_bulk_copy_counterexample :
    rsyncExcludeSources cexIsoFiles ≠
      cexIsoFiles.filter (fun p => !(p == cexPayload)) ∧
    ["sources", "setup.exe"] ∈ cexIsoFiles ∧
    ["sources", "setup.exe"] ≠ cexPayload ∧
    ["sources", "setup.exe"] ∉ bootPartitionContents cexIsoFiles := by
  refine ⟨?_, by decide, by decide, by decide⟩
  decide

/-- C4 amended: after the bulk copy the boot partition contains exactly
the image files with no `sources` directory component; the single file
then copied by itself is `sources/boot.wim` (not the install payload),
so a file under `sources/` other than `boot.wim` is absent from the
boot partition. -/
theorem windows_boot_copy_contents (files : List Path)
    (hwim : ["sources", "boot.wim"] ∈ files) :
    (∀ f, f ∈ bootPartitionContents files ↔
        ((f ∈ files ∧ underSourcesDir f = false) ∨ f = ["sources", "boot.wim"])) ∧
    ["sources", "boot.wim"] ∈ bootPartitionContents files ∧
    (∀ f, underSourcesDir f = true → f ≠ ["sources", "boot.wim"] →
        f ∉ bootPartitionContents files) := by
  refine ⟨?_, ?_, ?_⟩
  · intro f
    simp [bootPartitionContents, rsyncExcludeSources, List.mem_filter]
  · simp [bootPartitionContents]
  · intro f hf hne hmem
    simp [bootPartitionContents, rsyncExcludeSources, List.mem_filter, hf] at hmem
    exact hne hmem

theorem windows_boot_copy_contents_witness :
    ["sources", "boot.wim"] ∈ cexIsoFiles ∧
    ["sources", "install.wim"] ∉ bootPartitionContents cexIsoFiles :=
  ⟨by decide,
   (windows_boot_copy_contents cexIsoFiles (by decide)).2.2
     ["sources", "install.wim"] (by decide) (by decide)⟩

/-! ## Claim C6 -/

/-- C6 counterexample: the parser's yielded percentages are NOT
non-decreasing for every byte stream — a stream whose reported byte
counts go backwards yields a decreasing sequence (here 50 then 30). -/
theorem parser_not_monotone_counterexample :
    feedChunk 1000 [] ("500 bytes\r300 bytes\r".toList) =
      Except.ok ([50, 30], []) ∧
    ¬ List.Chain' (· ≤ ·) ([50, 30] : List Int) := by
  refine ⟨rfl, ?_⟩
  simp [List.chain'_cons]

/-- C6 amended: feeding ANY byte stream in arbitrary chunks — monotone
or not, whatever the total — produces exactly the same yield sequence
(hence the same final value) as feeding it in one read; for a non-zero
total the one-shot yields are the per-line percentages, and when the
byte counts parsed from the stream are non-decreasing — as dd's output
is — the yielded percentages are non-decreasing. -/
theorem parser_chunking_invariant (total : Nat) (cs : List (List Char)) :
    feedChunks total [] cs = feedChunk total [] cs.flatten ∧
    (0 < total →
      feedChunk total [] cs.flatten =
        Except.ok ((((splitCR cs.flatten).1.filterMap parsedNum).map (pctOf total)),
          (splitCR cs.flatten).2) ∧
      (List.Chain' (· ≤ ·) ((splitCR cs.flatten).1.filterMap parsedNum) →
        List.Chain' (· ≤ ·)
          (((splitCR cs.flatten).1.filterMap parsedNum).map (pctOf total)))) := by
  refine ⟨feedChunks_join total cs [] (by simp), fun ht => ⟨?_, fun hmono => ?_⟩⟩
  · simp only [feedChunk, List.nil_append,
      processLines_ok total (Nat.pos_iff_ne_zero.mp ht)]
  · exact (List.chain'_map _).mpr
      (hmono.imp fun a b hab => pctOf_mono total ht hab)

theorem parser_chunking_invariant_witness :
    feedChunks 1000 [] ["500 bytes\r300 byt".toList, "es\r".toList] =
      feedChunk 1000 [] (["500 bytes\r300 byt".toList, "es\r".toList].flatten) ∧
    List.Chain' (· ≤ ·)
      ((splitCR (["500 byt".toList, "es\r1000 bytes\r".toList].flatten)).1.filterMap
        parsedNum) ∧
    feedChunks 1000 [] ["500 byt".toList, "es\r1000 bytes\r".toList] =
      Except.ok ([50, 100], []) ∧
    List.Chain' (· ≤ ·)
      (((splitCR (["500 byt".toList, "es\r1000 bytes\r".toList].flatten)).1.filterMap
        parsedNum).map (pctOf 1000)) := by
  have hm : ((splitCR (["500 byt".toList, "es\r1000 bytes\r".toList].flatten)).1.filterMap
      parsedNum) = [500, 1000] := rfl
  have hc : List.Chain' (· ≤ ·)
      ((splitCR (["500 byt".toList, "es\r1000 bytes\r".toList].flatten)).1.filterMap
        parsedNum) := by
    rw [hm]; simp [List.chain'_cons]
  exact ⟨(parser_chunking_invariant 1000 ["500 bytes\r300 byt".toList, "es\r".toList]).1,
    hc,
    rfl,
    ((parser_chunking_invariant 1000
      ["500 byt".toList, "es\r1000 bytes\r".toList]).2 (by norm_num)).2 hc⟩

/-! ## Claim C7 -/

/-- C7 counterexample: on a zero-byte image the Linux flow does not
satisfy the claim — a single parseable dd progress line makes the
unguarded `num * 100 / total` raise ZeroDivisionError, and even the
run with no progress output completes without ever emitting overall
progress 100 (the live flow emits no overall signal at all). -/
theorem linux_zero_byte_counterexample :
    (linuxFlow 0 ["0 bytes copied\r".toList] 0).2 = LinuxResult.zeroDivFault ∧
    (linuxFlow 0 [] 0).2 = LinuxResult.success ∧
    overallValues (linuxFlow 0 [] 0).1 = [] := by
  exact ⟨rfl, rfl, rfl⟩

/-- C7 amended: on a zero-byte image the live Linux flow emits no
overall-progress value on any path (it reports progress only through
log lines); it completes without fault exactly when dd exits 0 and its
stderr stream contains no carriage-return-terminated line parsing as a
byte count, and any such line triggers a division-by-zero fault in the
progress computation. -/
theorem linux_zero_byte_behavior (chunks : List (List Char)) (exitCode : Nat) :
    overallValues (linuxFlow 0 chunks exitCode).1 = [] ∧
    ((splitCR chunks.flatten).1.filterMap parsedNum = [] → exitCode = 0 →
      (linuxFlow 0 chunks exitCode).2 = LinuxResult.success) ∧
    ((splitCR chunks.flatten).1.filterMap parsedNum ≠ [] →
      (linuxFlow 0 chunks exitCode).2 = LinuxResult.zeroDivFault) := by
  refine ⟨linuxFlow_no_overall 0 chunks exitCode, ?_, ?_⟩
  · intro hno hec
    unfold linuxFlow
    rw [feedChunks_join 0 chunks [] (by simp)]
    simp only [feedChunk, List.nil_append, processLines_zero_of_no_update _ hno, hec]
    rfl
  · intro hyes
    unfold linuxFlow
    rw [feedChunks_join 0 chunks [] (by simp)]
    simp only [feedChunk, List.nil_append, processLines_zero_of_update _ hyes]

theorem linux_zero_byte_behavior_witness :
    overallValues (linuxFlow 0 ["0 bytes copied\r".toList] 0).1 = [] ∧
    (linuxFlow 0 ["0 bytes copied\r".toList] 0).2 = LinuxResult.zeroDivFault :=
  ⟨(linux_zero_byte_behavior ["0 bytes copied\r".toList] 0).1,
   (linux_zero_byte_behavior ["0 bytes copied\r".toList] 0).2.2 (by decide)⟩

/-! ## Claim C8 -/

/-- C8 counterexample: the live parser yields the same percentage twice
in a row — two identical progress lines both produce `Copied 10%`. -/
theorem parser_duplicate_yield_counterexample :
    feedChunk 1000 [] ("100 bytes\r100 bytes\r".toList) =
      Except.ok ([10, 10], []) ∧
    ¬ List.Chain' (· ≠ ·) ([10, 10] : List Int) ∧
    (linuxFlow 1000 ["100 bytes\r100 bytes\r".toList] 0).1 =
      [Event.log "Starting dd copy...", copiedLog 10, copiedLog 10,
       Event.log "Syncing to disk...", Event.unchecked "sync",
       Event.log "dd copy completed.", Event.unchecked "rmtree base"] := by
  refine ⟨rfl, ?_, rfl⟩
  simp [List.chain'_cons]

lemma mainLogged_chain (last : Int) (ps : List Int) (hnn : ∀ p ∈ ps, 0 ≤ p)
    (hlast : 0 ≤ last) :
    List.Chain' (· ≠ ·) (mainLogged last ps) ∧
    (∀ q, (mainLogged last ps).head? = some q → q ≠ last) := by
  induction ps generalizing last with
  | nil => exact ⟨List.chain'_nil, by intro q hq; cases hq⟩
  | cons p ps ih =>
      have hp : 0 ≤ p := hnn p (List.mem_cons_self p ps)
      have hrest := ih p (fun x hx => hnn x (List.mem_cons_of_mem p hx)) hp
      by_cases hne : p ≠ last
      · rw [show mainLogged last (p :: ps) = p :: mainLogged p ps from by
          simp [mainLogged, hlast, hne]]
        refine ⟨List.chain'_cons'.mpr ⟨?_, hrest.1⟩, ?_⟩
        · intro y hy
          exact Ne.symm (hrest.2 y (Option.mem_def.mp hy))
        · intro q hq
          rw [List.head?_cons] at hq
          cases hq
          exact hne
      · push_neg at hne
        rw [show mainLogged last (p :: ps) = mainLogged p ps from by
          simp [mainLogged, hne]]
        exact ⟨hrest.1, by rw [← hne]; exact hrest.2⟩

/-- C8 amended: the live parser (linux_dd_flow) yields every parsed
percentage, including immediate repeats; deduplication exists only in
the legacy `_run_dd_flow` log channel, which logs a percentage only
when it differs from the previous one and never logs the first parsed
percentage — so over the nonnegative percentages real streams produce,
its logged sequence never contains the same value twice in a row. -/
theorem parser_dedup_only_in_legacy_log (ps : List Int)
    (hnn : ∀ p ∈ ps, 0 ≤ p) :
    List.Chain' (· ≠ ·) (mainLogged (-1) ps) ∧
    ∀ p, mainLogged (-1) [p] = [] := by
  constructor
  · cases ps with
    | nil => exact List.chain'_nil
    | cons p ps =>
        have hp : 0 ≤ p := hnn p (List.mem_cons_self p ps)
        rw [show mainLogged (-1) (p :: ps) = mainLogged p ps from by
          simp [mainLogged]]
        exact (mainLogged_chain p ps
          (fun x hx => hnn x (List.mem_cons_of_mem p hx)) hp).1
  · intro p
    simp [mainLogged]

theorem parser_dedup_only_in_legacy_log_witness :
    (∀ p ∈ ([10, 10, 20, 20, 15] : List Int), 0 ≤ p) ∧
    List.Chain' (· ≠ ·) (mainLogged (-1) ([10, 10, 20, 20, 15] : List Int)) :=
  ⟨by decide,
   (parser_dedup_only_in_legacy_log [10, 10, 20, 20, 15] (by decide)).1⟩

/-! ## Claim C9 -/

/-- C9 counterexample: when dd exits non-zero the flow raises before
the sync step — the SYNC step is NOT attempted on a failed copy,
refuting "SYNC is always attempted best-effort". -/
theorem linux_sync_skipped_on_copy_failure :
    (linuxFlow 4 [] 1).2 = LinuxResult.ddFailed ∧
    Event.unchecked "sync" ∉ (linuxFlow 4 [] 1).1 ∧
    Event.log "dd copy completed." ∉ (linuxFlow 4 [] 1).1 := by
  refine ⟨rfl, ?_, ?_⟩ <;> decide

/-- C9 amended: a non-zero dd exit is fatal and aborts the flow
immediately — the sync and the completion log are skipped; the sync
is attempted (best-effort, its exit status ignored) exactly on the
runs where the copy succeeded. -/
theorem linux_copy_failure_fatal (total : Nat) (ht : 0 < total)
    (chunks : List (List Char)) (exitCode : Nat) :
    (exitCode ≠ 0 →
      (linuxFlow total chunks exitCode).2 = LinuxResult.ddFailed ∧
      Event.unchecked "sync" ∉ (linuxFlow total chunks exitCode).1 ∧
      Event.log "dd copy completed." ∉ (linuxFlow total chunks exitCode).1) ∧
    (exitCode = 0 →
      (linuxFlow total chunks exitCode).2 = LinuxResult.success ∧
      Event.unchecked "sync" ∈ (linuxFlow total chunks exitCode).1) := by
  have hfe := feedChunks_ok total (Nat.pos_iff_ne_zero.mp ht) chunks
  constructor
  · intro hec
    unfold linuxFlow
    rw [hfe]
    dsimp only
    rw [if_pos hec]
    refine ⟨rfl, ?_, ?_⟩
    · simp [copiedLog]
    · intro hmem
      simp only [List.mem_cons, List.mem_append, List.mem_map,
        List.not_mem_nil, or_false] at hmem
      rcases hmem with h | ⟨p, _, hp⟩ | h
      · exact absurd h (by simp)
      · exact copiedLog_ne_completed p hp
      · exact absurd h (by simp)
  · intro hec
    subst hec
    unfold linuxFlow
    rw [hfe]
    dsimp only
    rw [if_neg (fun h => h rfl)]
    refine ⟨rfl, ?_⟩
    simp

theorem linux_copy_failure_fatal_witness :
    (linuxFlow 4 [] 1).2 = LinuxResult.ddFailed ∧
    Event.unchecked "sync" ∉ (linuxFlow 4 [] 1).1 ∧
    (linuxFlow 4 [] 0).2 = LinuxResult.success ∧
    Event.unchecked "sync" ∈ (linuxFlow 4 [] 0).1 :=
  ⟨((linux_copy_failure_fatal 4 (by norm_num) [] 1).1 (by norm_num)).1,
   ((linux_copy_failure_fatal 4 (by norm_num) [] 1).1 (by norm_num)).2.1,
   ((linux_copy_failure_fatal 4 (by norm_num) [] 0).2 rfl).1,
   ((linux_copy_failure_fatal 4 (by norm_num) [] 0).2 rfl).2⟩

end USBCreator
